import Mathlib

/-!
Verification of the `GeminiService` core (`src/core/gemini_service.py`):
the tiered generation helpers, the retry orchestrator `generate_with_retry`,
and the JSON extraction helper `parse_json_response`.

Strings from the Python side are modelled as `List Char`.  The Python calls
`json.loads` / `json.dumps` are embedded as an executable JSON codec over the
inductive `Json` below; numbers are modelled as integers (the service's
payloads are syntactic JSON; float literals are outside the modelled
fragment), and JSON whitespace coincides with `Char.isWhitespace`
(space, tab, carriage return, newline).  Failure of `json.loads`
(a `json.JSONDecodeError`) is modelled as `none`.
-/

namespace GeminiService

/-- A JSON value, as produced by the embedded `json.loads`.  Objects keep
their members in source order, mirroring a Python `dict` built by the
stdlib decoder. -/
inductive Json where
  | null
  | bool (b : Bool)
  | num (n : Int)
  | str (s : String)
  | arr (elements : List Json)
  | obj (members : List (String × Json))

/-- Whether a value is a JSON object (a mapping), the shape the Python
annotation `-> Dict` promises. -/
def Json.isObj : Json → Bool
  | .obj _ => true
  | _ => false

/-! ## Serialization: the embedded `json.dumps`

Mirrors the stdlib defaults that matter syntactically: separators are
a comma-space between items and a colon-space after keys, double-quoted
strings, and backslash escapes for the quote, the backslash and control
characters (named escapes for backspace, form feed, newline, carriage
return and tab; a 4-digit hexadecimal escape for the rest). -/

/-- Lower-case hexadecimal digit for a value below 16. -/
def hexChar (n : Nat) : Char :=
  if n < 10 then Char.ofNat (48 + n) else Char.ofNat (87 + n)

/-- JSON escape of a single character inside a string literal. -/
def escChar (c : Char) : List Char :=
  if c = '"' then ['\\', '"']
  else if c = '\\' then ['\\', '\\']
  else if c = '\x08' then ['\\', 'b']
  else if c = '\x0c' then ['\\', 'f']
  else if c = '\n' then ['\\', 'n']
  else if c = '\r' then ['\\', 'r']
  else if c = '\t' then ['\\', 't']
  else if c.toNat < 32 then
    ['\\', 'u', '0', '0', hexChar (c.toNat / 16), hexChar (c.toNat % 16)]
  else [c]

/-- A serialized string literal: quote, escaped body, quote. -/
def dumpStr (s : String) : List Char :=
  '"' :: (s.toList.flatMap escChar ++ ['"'])

/-- Decimal digits of a natural number, most significant first. -/
def dumpNat (n : Nat) : List Char :=
  if n < 10 then [Char.ofNat (48 + n)]
  else dumpNat (n / 10) ++ [Char.ofNat (48 + n % 10)]
termination_by n
decreasing_by exact Nat.div_lt_self (by omega) (by omega)

/-- Decimal form of an integer: optional minus sign, then digits. -/
def dumpInt (n : Int) : List Char :=
  if n < 0 then '-' :: dumpNat n.natAbs else dumpNat n.natAbs

mutual

/-- The embedded `json.dumps`, producing the character list of the
serialized document. -/
def json_dumps : Json → List Char
  | .num n => dumpInt n
  | .str s => dumpStr s
  | .null => "null".toList
  | .bool b => (cond b "true" "false").toList
  | .arr [] => ['[', ']']
  | .arr (e :: es) => '[' :: (json_dumps e ++ dumpMoreElems es ++ [']'])
  | .obj [] => ['{', '}']
  | .obj (m :: ms) => '{' :: (dumpMember m ++ dumpMoreMembers ms ++ ['}'])

/-- One object member: serialized key, colon, space, serialized value. -/
def dumpMember : String × Json → List Char
  | (k, v) => dumpStr k ++ ':' :: ' ' :: json_dumps v

/-- Remaining array elements, each preceded by a comma and a space. -/
def dumpMoreElems : List Json → List Char
  | [] => []
  | e :: es => ',' :: ' ' :: (json_dumps e ++ dumpMoreElems es)

/-- Remaining object members, each preceded by a comma and a space. -/
def dumpMoreMembers : List (String × Json) → List Char
  | [] => []
  | m :: ms => ',' :: ' ' :: (dumpMember m ++ dumpMoreMembers ms)

end

/-! ## Parsing: the embedded `json.loads` -/

/-- Consume leading JSON whitespace. -/
def skipWs (cs : List Char) : List Char := cs.dropWhile Char.isWhitespace

/-- Value of a hexadecimal digit, in either case. -/
def hexVal? (c : Char) : Option Nat :=
  if 48 ≤ c.toNat ∧ c.toNat ≤ 57 then some (c.toNat - 48)
  else if 97 ≤ c.toNat ∧ c.toNat ≤ 102 then some (c.toNat - 87)
  else if 65 ≤ c.toNat ∧ c.toNat ≤ 70 then some (c.toNat - 55)
  else none

/-- Decoding of a two-character escape (the part after the backslash). -/
def escVal? (c : Char) : Option Char :=
  if c = '"' then some '"'
  else if c = '\\' then some '\\'
  else if c = '/' then some '/'
  else if c = 'b' then some '\x08'
  else if c = 'f' then some '\x0c'
  else if c = 'n' then some '\n'
  else if c = 'r' then some '\r'
  else if c = 't' then some '\t'
  else none

/-- Value of a four-digit hexadecimal escape body. -/
def hex4Val? (h1 h2 h3 h4 : Char) : Option Nat :=
  match hexVal? h1, hexVal? h2, hexVal? h3, hexVal? h4 with
  | some a, some b, some c, some d => some (((a * 16 + b) * 16 + c) * 16 + d)
  | _, _, _, _ => none

/-- Scan a string literal body after the opening quote, unescaping as it
goes; the decoder is strict, so an unescaped control character is an
error.  A hexadecimal escape denoting a surrogate half is outside the
modelled fragment and is rejected. -/
def scanStr (acc : List Char) : List Char → Option (String × List Char)
  | [] => none
  | c :: rest =>
    if c = '"' then some (String.mk acc.reverse, rest)
    else if c = '\\' then
      match rest with
      | [] => none
      | e :: rest2 =>
        if e = 'u' then
          match rest2 with
          | h1 :: h2 :: h3 :: h4 :: rest3 =>
            match hex4Val? h1 h2 h3 h4 with
            | some n =>
              if 55296 ≤ n ∧ n ≤ 57343 then none
              else scanStr (Char.ofNat n :: acc) rest3
            | none => none
          | _ => none
        else
          match escVal? e with
          | some ch => scanStr (ch :: acc) rest2
          | none => none
    else if c.toNat < 32 then none
    else scanStr (c :: acc) rest

/-- Whether the input does not begin with a decimal digit: glued after a
serialized number, such a remainder cannot extend the number's digit
run. -/
def noDigitHead : List Char → Bool
  | [] => true
  | c :: _ => !c.isDigit

/-- Numeric value of a digit run. -/
def digitsVal (ds : List Char) : Nat :=
  ds.foldl (fun a c => 10 * a + (c.toNat - 48)) 0

/-- Scan an integer literal: optional minus sign, then a digit run with
no leading zero (the JSON grammar).  A fraction or exponent suffix is
outside the modelled fragment; its leading character is simply left in
the remainder, where the surrounding grammar rejects it. -/
def scanNum (cs : List Char) : Option (Int × List Char) :=
  let neg := cs.head? = some '-'
  let cs1 := if neg then cs.tail else cs
  let ds := cs1.takeWhile Char.isDigit
  let rest := cs1.dropWhile Char.isDigit
  if ds = [] then none
  else if 1 < ds.length ∧ ds.head? = some '0' then none
  else if neg then some (-(digitsVal ds : Int), rest)
  else some ((digitsVal ds : Int), rest)

mutual

/-- Parse one JSON value from the front of the input, returning it with
the unconsumed remainder.  Recursion is on an explicit fuel; the top
level supplies more fuel than the input length, which is always enough
because every recursive step consumes input. -/
def parseVal (fuel : Nat) (cs : List Char) : Option (Json × List Char) :=
  match fuel with
  | 0 => none
  | fuel + 1 =>
    match skipWs cs with
    | [] => none
    | c :: rest =>
      if c = '{' then
        match skipWs rest with
        | [] => none
        | c2 :: rest2 =>
          if c2 = '}' then some (.obj [], rest2)
          else
            match parseMembers fuel (c2 :: rest2) with
            | some (ms, rest3) => some (.obj ms, rest3)
            | none => none
      else if c = '[' then
        match skipWs rest with
        | [] => none
        | c2 :: rest2 =>
          if c2 = ']' then some (.arr [], rest2)
          else
            match parseElems fuel (c2 :: rest2) with
            | some (es, rest3) => some (.arr es, rest3)
            | none => none
      else if c = '"' then
        match scanStr [] rest with
        | some (s, rest2) => some (.str s, rest2)
        | none => none
      else if c = 't' then
        match rest with
        | 'r' :: 'u' :: 'e' :: rest2 => some (.bool true, rest2)
        | _ => none
      else if c = 'f' then
        match rest with
        | 'a' :: 'l' :: 's' :: 'e' :: rest2 => some (.bool false, rest2)
        | _ => none
      else if c = 'n' then
        match rest with
        | 'u' :: 'l' :: 'l' :: rest2 => some (.null, rest2)
        | _ => none
      else if c = '-' ∨ c.isDigit then
        match scanNum (c :: rest) with
        | some (n, rest2) => some (.num n, rest2)
        | none => none
      else none

/-- Parse one or more comma-separated object members up to the closing
brace (the empty object is handled before this is entered). -/
def parseMembers (fuel : Nat) (cs : List Char) :
    Option (List (String × Json) × List Char) :=
  match fuel with
  | 0 => none
  | fuel + 1 =>
    match skipWs cs with
    | [] => none
    | c :: rest =>
      if c = '"' then
        match scanStr [] rest with
        | none => none
        | some (k, rest2) =>
          match skipWs rest2 with
          | ':' :: rest3 =>
            match parseVal fuel rest3 with
            | none => none
            | some (v, rest4) =>
              match skipWs rest4 with
              | ',' :: rest5 =>
                match parseMembers fuel rest5 with
                | some (ms, rest6) => some ((k, v) :: ms, rest6)
                | none => none
              | '}' :: rest5 => some ([(k, v)], rest5)
              | _ => none
          | _ => none
      else none

/-- Parse one or more comma-separated array elements up to the closing
bracket (the empty array is handled before this is entered). -/
def parseElems (fuel : Nat) (cs : List Char) :
    Option (List Json × List Char) :=
  match fuel with
  | 0 => none
  | fuel + 1 =>
    match parseVal fuel cs with
    | none => none
    | some (v, rest) =>
      match skipWs rest with
      | ',' :: rest2 =>
        match parseElems fuel rest2 with
        | some (es, rest3) => some (v :: es, rest3)
        | none => none
      | ']' :: rest2 => some ([v], rest2)
      | _ => none

end

/-- The embedded `json.loads`: a strict parse of the whole document;
`none` stands for a raised `json.JSONDecodeError`. -/
def json_loads (cs : List Char) : Option Json :=
  match parseVal (cs.length + 1) cs with
  | some (v, rest) => if skipWs rest = [] then some v else none
  | none => none

/-! ## The extractor: `parse_json_response` -/

/-- Python `str.strip` from the left only. -/
def lstrip (cs : List Char) : List Char := cs.dropWhile Char.isWhitespace

/-- Python `str.strip` from the right only. -/
def rstrip (cs : List Char) : List Char :=
  (cs.reverse.dropWhile Char.isWhitespace).reverse

/-- Python `str.strip`: whitespace removed from both ends.  The
whitespace class is modelled as `Char.isWhitespace` (space, tab,
carriage return, newline), the same class the JSON grammar uses; the
few further Python whitespace code points are outside the modelled
fragment. -/
def pyStrip (cs : List Char) : List Char := rstrip (lstrip cs)

/-- The seven-character marker of a JSON-labelled markdown fence. -/
def jsonFence : List Char := ['`', '`', '`', 'j', 's', 'o', 'n']

/-- The three-character generic markdown fence marker. -/
def plainFence : List Char := ['`', '`', '`']

/-- Python lines 88-92: drop a leading JSON-labelled fence marker, else a
leading generic fence marker, from the front of the (stripped) text. -/
def stripLeadFence (cs : List Char) : List Char :=
  if jsonFence.isPrefixOf cs then cs.drop 7
  else if plainFence.isPrefixOf cs then cs.drop 3
  else cs

/-- Python lines 94-95: drop a trailing fence marker from the end. -/
def stripTrailFence (cs : List Char) : List Char :=
  if plainFence.isSuffixOf cs then cs.take (cs.length - 3)
  else cs

/-- Lines 85-97 of the source: strip, unfence, strip again.  This is the
text handed to the strict parse. -/
def preprocess (cs : List Char) : List Char :=
  pyStrip (stripTrailFence (stripLeadFence (pyStrip cs)))

/-- Index of the first occurrence of a character. -/
def firstIdx (c : Char) (cs : List Char) : Option Nat :=
  cs.findIdx? (· = c)

/-- Index of the last occurrence of a character. -/
def lastIdx (c : Char) (cs : List Char) : Option Nat :=
  match cs.reverse.findIdx? (· = c) with
  | some k => some (cs.length - 1 - k)
  | none => none

/-- The fallback search of line 102, a DOTALL `re.search` for an opening
brace, a greedy gap, and a closing brace: it succeeds exactly when some
closing brace follows some opening brace, and then yields the widest
span, from the first opening brace to the last closing brace. -/
def braceSearch (cs : List Char) : Option (List Char) :=
  match firstIdx '{' cs, lastIdx '}' cs with
  | some i, some j => if i < j then some ((cs.drop i).take (j - i + 1)) else none
  | _, _ => none

/-- The distinguishable failures of `parse_json_response`:
the `ValueError("Empty response text")` of line 84, the
`ValueError("Could not parse JSON from Gemini response")` of line 107,
and a `json.JSONDecodeError` escaping from the fallback parse of
line 104. -/
inductive ParseErr where
  | emptyResponse
  | couldNotParse
  | decodeError
deriving DecidableEq

/-- The extractor (lines 78-107).  A falsy `response_text` is an empty
character list.  The strict parse failure is caught and the fallback
span is parsed; a failure of that second parse is NOT caught by the
source, so it surfaces as `decodeError` rather than `couldNotParse`. -/
def parse_json_response (response_text : List Char) : Except ParseErr Json :=
  if response_text = [] then .error .emptyResponse
  else
    let text := preprocess response_text
    match json_loads text with
    | some v => .ok v
    | none =>
      match braceSearch text with
      | some sub =>
        match json_loads sub with
        | some v => .ok v
        | none => .error .decodeError
      | none => .error .couldNotParse

/-- A serialized document wrapped in a markdown fence: optional
whitespace, the opening marker (JSON-labelled or generic), optional
whitespace, the document, optional whitespace, the closing marker, and
optional trailing whitespace. -/
def fenceWrap (jsonLabel : Bool) (wsA wsB wsC wsD : List Char)
    (body : List Char) : List Char :=
  wsA ++ (if jsonLabel then jsonFence else plainFence) ++ wsB ++ body ++
    wsC ++ plainFence ++ wsD

/-! ## The tiered generator

The backend call `genai.GenerativeModel(model_id).generate_content(prompt)`
is modelled as an abstract function from a model identifier and a prompt to
a response object; the response carries its Python truthiness and its
`text` attribute. -/

/-- A backend response object: its truthiness and its text attribute. -/
structure GenResponse where
  truthy : Bool
  text : String

/-- The three configured model identifiers (the `settings` values). -/
structure Settings where
  gemini_model_lite : String
  gemini_model_flash : String
  gemini_model_pro : String

/-- Lines 23-27: resolve the Lite model identifier, issue the call, and
return the response text verbatim when the response is truthy, `None`
otherwise. -/
def generate_with_lite (settings : Settings)
    (generate_content : String → String → GenResponse)
    (prompt : String) : Option String :=
  let response := generate_content settings.gemini_model_lite prompt
  if response.truthy then some response.text else none

/-! ## The retry orchestrator: `generate_with_retry`

Each tier's `generate_with_X` call at a given attempt either raises (a
backend error of some type `ε`) or returns an optional text; attempts are
indexed so that a stub backend can fail a prescribed number of times.
The trace records the final outcome, how many backend calls were made,
and every back-off sleep in order. -/

/-- What `generate_with_retry` can raise: the `ValueError` for an
unrecognized `model_type` (line 63), a backend error re-raised verbatim
(line 67), or the `RuntimeError("Failed after maximum retries")` of
line 72. -/
inductive RetryErr (ε : Type) where
  | invalidModel (model_type : String)
  | backend (e : ε)
  | exhausted
deriving DecidableEq

/-- Observable trace of one `generate_with_retry` call. -/
structure RetryTrace (ε : Type) where
  result : Except (RetryErr ε) (Option String)
  calls : Nat
  sleeps : List Nat

/-- Whether `model_type` is one of the three recognized tiers. -/
def validTier (model_type : String) : Bool :=
  model_type = "lite" ∨ model_type = "flash" ∨ model_type = "pro"

/-- The tier the dispatch chain of lines 56-61 selects. -/
def selectBackend (bLite bFlash bPro : Nat → Except ε (Option String))
    (model_type : String) : Nat → Except ε (Option String) :=
  if model_type = "lite" then bLite
  else if model_type = "flash" then bFlash
  else bPro

/-- Tag a backend failure for the orchestrator's error type. -/
def liftBackend : Except ε (Option String) → Except (RetryErr ε) (Option String)
  | .ok v => .ok v
  | .error e => .error (.backend e)

/-- The body of the `try` block (lines 55-63) at attempt `a`: dispatch on
`model_type`, giving the selected backend's outcome and one backend call,
or the invalid-model-type `ValueError` with no backend call. -/
def attemptCall (bLite bFlash bPro : Nat → Except ε (Option String))
    (model_type : String) (a : Nat) :
    Except (RetryErr ε) (Option String) × Nat :=
  if model_type = "lite" then (liftBackend (bLite a), 1)
  else if model_type = "flash" then (liftBackend (bFlash a), 1)
  else if model_type = "pro" then (liftBackend (bPro a), 1)
  else (.error (.invalidModel model_type), 0)

/-- The loop of lines 54-70, written on the number `r` of iterations
still permitted (`a` is the current value of `attempt`, so `a + r`
equals the loop bound).  A successful attempt returns at once; a raising
attempt re-raises when `attempt == max_retries - 1` and otherwise sleeps
`2 ^ attempt` and continues.  Exhausting `r` without entering the body
reaches line 72. -/
def retryLoop (bLite bFlash bPro : Nat → Except ε (Option String))
    (model_type : String) (max_retries : Nat) (a : Nat) :
    Nat → RetryTrace ε
  | 0 => ⟨.error .exhausted, 0, []⟩
  | r + 1 =>
    match attemptCall bLite bFlash bPro model_type a with
    | (.ok v, n) => ⟨.ok v, n, []⟩
    | (.error e, n) =>
      if a = max_retries - 1 then ⟨.error e, n, []⟩
      else
        let t := retryLoop bLite bFlash bPro model_type max_retries (a + 1) r
        ⟨t.result, n + t.calls, 2 ^ a :: t.sleeps⟩

/-- Lines 45-72: run the retry loop over `range(max_retries)` (empty when
`max_retries` is zero or negative). -/
def generate_with_retry (bLite bFlash bPro : Nat → Except ε (Option String))
    (model_type : String) (max_retries : Int) : RetryTrace ε :=
  retryLoop bLite bFlash bPro model_type max_retries.toNat 0 max_retries.toNat

/-! ## Lemmas about the retry orchestrator -/

theorem attemptCall_valid (bLite bFlash bPro : Nat → Except ε (Option String))
    (mt : String) (a : Nat) (h : validTier mt = true) :
    attemptCall bLite bFlash bPro mt a =
      (liftBackend (selectBackend bLite bFlash bPro mt a), 1) := by
  simp only [validTier, decide_eq_true_eq] at h
  rcases h with h | h | h <;> subst h <;> rfl

theorem attemptCall_invalid (bLite bFlash bPro : Nat → Except ε (Option String))
    (mt : String) (a : Nat) (h : validTier mt = false) :
    attemptCall bLite bFlash bPro mt a = (.error (.invalidModel mt), 0) := by
  simp only [validTier, decide_eq_false_iff_not] at h
  push_neg at h
  obtain ⟨h1, h2, h3⟩ := h
  simp [attemptCall, h1, h2, h3]

/-- Splitting off the first of a run of exponential back-off sleeps. -/
theorem pow_sleeps_cons (a s : Nat) :
    (List.range (s + 1)).map (fun i => 2 ^ (a + i)) =
      2 ^ a :: (List.range s).map (fun i => 2 ^ (a + 1 + i)) := by
  rw [List.range_succ_eq_map, List.map_cons, List.map_map]
  refine congrArg₂ _ (by rw [Nat.add_zero]) (List.map_congr_left ?_)
  intro i _
  show 2 ^ (a + (i + 1)) = 2 ^ (a + 1 + i)
  congr 1
  omega

/-- With an invalid tier, every iteration of the loop raises the
invalid-model `ValueError`, makes no backend call, and (except on the
final attempt) sleeps before retrying. -/
theorem retryLoop_invalid (bLite bFlash bPro : Nat → Except ε (Option String))
    (mt : String) (maxR : Nat) (h : validTier mt = false) :
    ∀ r a, a + r = maxR → 1 ≤ r →
      retryLoop bLite bFlash bPro mt maxR a r =
        ⟨.error (.invalidModel mt), 0,
          (List.range (r - 1)).map (fun i => 2 ^ (a + i))⟩ := by
  intro r
  induction r with
  | zero => intro a _ hr; omega
  | succ r ih =>
    intro a hsum _
    simp only [retryLoop, attemptCall_invalid bLite bFlash bPro mt a h]
    by_cases hlast : a = maxR - 1
    · have hr0 : r = 0 := by omega
      subst hr0
      simp [hlast]
    · have hr1 : 1 ≤ r := by omega
      rw [if_neg hlast]
      simp only [ih (a + 1) (by omega) hr1]
      rw [show r + 1 - 1 = (r - 1) + 1 by omega, pow_sleeps_cons]

/-- With a valid tier and a backend that fails on attempts `a + 0 ..
a + (k-1)` and succeeds on attempt `a + k`, the loop returns the
success, makes `k + 1` calls, and sleeps `2^a, …, 2^(a+k-1)`. -/
theorem retryLoop_succeeds (bLite bFlash bPro : Nat → Except ε (Option String))
    (mt : String) (maxR : Nat) (hmt : validTier mt = true) (v : Option String) :
    ∀ k a r, a + r = maxR → k < r →
      (∀ i, i < k → ∃ e, selectBackend bLite bFlash bPro mt (a + i) = .error e) →
      selectBackend bLite bFlash bPro mt (a + k) = .ok v →
      retryLoop bLite bFlash bPro mt maxR a r =
        ⟨.ok v, k + 1, (List.range k).map (fun i => 2 ^ (a + i))⟩ := by
  intro k
  induction k with
  | zero =>
    intro a r hsum hkr _ hok
    obtain ⟨r, rfl⟩ : ∃ s, r = s + 1 := ⟨r - 1, by omega⟩
    rw [Nat.add_zero] at hok
    simp [retryLoop, attemptCall_valid bLite bFlash bPro mt a hmt, hok, liftBackend]
  | succ k ih =>
    intro a r hsum hkr herr hok
    obtain ⟨r, rfl⟩ : ∃ s, r = s + 1 := ⟨r - 1, by omega⟩
    obtain ⟨e, he⟩ := herr 0 (by omega)
    rw [Nat.add_zero] at he
    have hlast : ¬ a = maxR - 1 := by omega
    have hrec := ih (a + 1) r (by omega) (by omega)
      (fun i hi => by
        have hx := herr (i + 1) (by omega)
        rwa [show a + (i + 1) = a + 1 + i by omega] at hx)
      (by rwa [show a + (k + 1) = a + 1 + k by omega] at hok)
    simp only [retryLoop, attemptCall_valid bLite bFlash bPro mt a hmt, he,
      liftBackend, if_neg hlast, hrec]
    rw [pow_sleeps_cons]
    simp [Nat.add_comm]

/-- With a valid tier and a backend that fails on every attempt, the
loop performs all its iterations and re-raises the error of the final
attempt, the one at index `maxR - 1`. -/
theorem retryLoop_allFail (bLite bFlash bPro : Nat → Except ε (Option String))
    (mt : String) (maxR : Nat) (hmt : validTier mt = true) (errs : Nat → ε)
    (herr : ∀ i, selectBackend bLite bFlash bPro mt i = .error (errs i)) :
    ∀ r a, a + r = maxR → 1 ≤ r →
      retryLoop bLite bFlash bPro mt maxR a r =
        ⟨.error (.backend (errs (maxR - 1))), r,
          (List.range (r - 1)).map (fun i => 2 ^ (a + i))⟩ := by
  intro r
  induction r with
  | zero => intro a _ hr; omega
  | succ r ih =>
    intro a hsum _
    simp only [retryLoop, attemptCall_valid bLite bFlash bPro mt a hmt, herr a,
      liftBackend]
    by_cases hlast : a = maxR - 1
    · have hr0 : r = 0 := by omega
      subst hr0
      simp [hlast]
    · have hr1 : 1 ≤ r := by omega
      rw [if_neg hlast]
      simp only [ih (a + 1) (by omega) hr1]
      rw [show r + 1 - 1 = (r - 1) + 1 by omega, pow_sleeps_cons]
      simp [Nat.add_comm]

/-! ## Claims about the retry orchestrator and the tiered generator -/

/-- C1, as written, fails: with the invalid tier `"gpt"` and
`max_retries = 2`, the invalid-model `ValueError` is raised inside the
`try` block, so the `except` clause catches it, sleeps one time unit,
and retries it; the error is not raised immediately and the back-off
delay is not zero.  (Zero backend calls do hold.) -/
theorem retry_invalid_tier_counterexample :
    (generate_with_retry (fun _ => .ok (some "text")) (fun _ => .ok (some "text"))
        (fun _ => .ok (some "text")) "gpt" 2 : RetryTrace String) =
      ⟨.error (.invalidModel "gpt"), 0, [1]⟩ ∧
    ¬ (generate_with_retry (fun _ => .ok (some "text")) (fun _ => .ok (some "text"))
        (fun _ => .ok (some "text")) "gpt" 2 : RetryTrace String).sleeps = [] := by
  exact ⟨rfl, by intro h; exact absurd h (by decide)⟩

/-- C1 (amended): for an invalid tier and `max_retries ≥ 1`, the call
makes zero backend calls and does raise the invalid-argument error, but
only after all `max_retries` attempts, sleeping `2^0, …,
2^(max_retries-2)` between them; the raise is immediate with zero delay
only when `max_retries = 1`. -/
theorem generate_with_retry_invalid_tier
    (bLite bFlash bPro : Nat → Except ε (Option String)) (mt : String)
    (max_retries : Nat) (hmt : validTier mt = false) (hmr : 1 ≤ max_retries) :
    generate_with_retry bLite bFlash bPro mt (max_retries : Int) =
      ⟨.error (.invalidModel mt), 0,
        (List.range (max_retries - 1)).map (fun i => 2 ^ i)⟩ := by
  unfold generate_with_retry
  rw [Int.toNat_natCast]
  have h := retryLoop_invalid bLite bFlash bPro mt max_retries hmt max_retries 0
    (by omega) hmr
  simpa using h

theorem generate_with_retry_invalid_tier_witness :
    (generate_with_retry (fun _ => .ok (some "text")) (fun _ => .ok (some "text"))
        (fun _ => .ok (some "text")) "gpt" 3 : RetryTrace String) =
      ⟨.error (.invalidModel "gpt"), 0, [1, 2]⟩ :=
  generate_with_retry_invalid_tier _ _ _ "gpt" 3 (by decide) (by omega)

/-- C2: with a valid tier and a backend failing on the first `k`
attempts (`k < max_retries`) then succeeding, the orchestrator returns
the success value, makes exactly `k + 1` backend calls, and sleeps
exactly `k` times with durations `2^0, 2^1, …, 2^(k-1)` in order. -/
theorem generate_with_retry_eventual_success
    (bLite bFlash bPro : Nat → Except ε (Option String)) (mt : String)
    (max_retries : Nat) (k : Nat) (v : Option String)
    (hmt : validTier mt = true) (hk : k < max_retries)
    (herr : ∀ i, i < k → ∃ e, selectBackend bLite bFlash bPro mt i = .error e)
    (hok : selectBackend bLite bFlash bPro mt k = .ok v) :
    generate_with_retry bLite bFlash bPro mt (max_retries : Int) =
      ⟨.ok v, k + 1, (List.range k).map (fun i => 2 ^ i)⟩ := by
  unfold generate_with_retry
  rw [Int.toNat_natCast]
  have h := retryLoop_succeeds bLite bFlash bPro mt max_retries hmt v k 0
    max_retries (by omega) hk (by simpa using herr) (by simpa using hok)
  simpa using h

theorem generate_with_retry_eventual_success_witness :
    (generate_with_retry (fun _ => .error "boom")
        (fun i => if i < 2 then .error "boom" else .ok (some "yay"))
        (fun _ => .error "boom") "flash" 4 : RetryTrace String) =
      ⟨.ok (some "yay"), 3, [1, 2]⟩ :=
  generate_with_retry_eventual_success _ _ _ "flash" 4 2 (some "yay") (by decide)
    (by omega) (fun i hi => ⟨"boom", by simp [selectBackend, hi]⟩)
    (by simp [selectBackend])

/-- C3: with a valid tier, `max_retries ≥ 1`, and a backend raising on
every attempt, the orchestrator makes exactly `max_retries` backend
calls and re-raises the error of the final attempt unchanged (the very
value `errs (max_retries - 1)` the backend raised), swallowing no
error. -/
theorem generate_with_retry_exhausts_and_reraises
    (bLite bFlash bPro : Nat → Except ε (Option String)) (mt : String)
    (max_retries : Nat) (errs : Nat → ε)
    (hmt : validTier mt = true) (hmr : 1 ≤ max_retries)
    (herr : ∀ i, selectBackend bLite bFlash bPro mt i = .error (errs i)) :
    generate_with_retry bLite bFlash bPro mt (max_retries : Int) =
      ⟨.error (.backend (errs (max_retries - 1))), max_retries,
        (List.range (max_retries - 1)).map (fun i => 2 ^ i)⟩ := by
  unfold generate_with_retry
  rw [Int.toNat_natCast]
  have h := retryLoop_allFail bLite bFlash bPro mt max_retries hmt errs herr
    max_retries 0 (by omega) hmr
  simpa using h

theorem generate_with_retry_exhausts_and_reraises_witness :
    (generate_with_retry (fun i => .error (toString i)) (fun i => .error (toString i))
        (fun i => .error (toString i)) "pro" 3 : RetryTrace String) =
      ⟨.error (.backend "2"), 3, [1, 2]⟩ :=
  generate_with_retry_exhausts_and_reraises _ _ _ "pro" 3 (fun i => toString i)
    (by decide) (by omega) (fun i => rfl)

/-- C4: with `max_retries ≤ 0` the loop body never runs: zero backend
calls, no sleeps, and the distinct generic retries-exhausted
`RuntimeError` is raised — a constructor different from every backend
error and from the invalid-argument error, and not a silent absent
result. -/
theorem generate_with_retry_nonpositive_budget
    (bLite bFlash bPro : Nat → Except ε (Option String)) (mt : String)
    (max_retries : Int) (hmr : max_retries ≤ 0) :
    generate_with_retry bLite bFlash bPro mt max_retries =
      ⟨.error .exhausted, 0, []⟩ ∧
    (∀ e : ε, (RetryErr.exhausted : RetryErr ε) ≠ .backend e) ∧
    (∀ s : String, (RetryErr.exhausted : RetryErr ε) ≠ .invalidModel s) ∧
    (∀ t : Option String,
      (generate_with_retry bLite bFlash bPro mt max_retries).result ≠ .ok t) := by
  have h0 : max_retries.toNat = 0 := Int.toNat_of_nonpos hmr
  have htr : generate_with_retry bLite bFlash bPro mt max_retries =
      ⟨.error .exhausted, 0, []⟩ := by
    unfold generate_with_retry
    rw [h0]
    rfl
  refine ⟨htr, ?_, ?_, ?_⟩
  · intro e h
    cases h
  · intro s h
    cases h
  · intro t h
    rw [htr] at h
    cases h

theorem generate_with_retry_nonpositive_budget_witness :
    (generate_with_retry (fun _ => .ok (some "text")) (fun _ => .ok (some "text"))
        (fun _ => .ok (some "text")) "flash" (-3) : RetryTrace String) =
      ⟨.error .exhausted, 0, []⟩ :=
  (generate_with_retry_nonpositive_budget _ _ _ "flash" (-3) (by omega)).1

/-- C9: a tier-specific generate call returns `None` exactly when the
backend response object is falsy, and otherwise returns the response's
text attribute verbatim, with no trimming or normalisation. -/
theorem generate_with_lite_text_verbatim (settings : Settings)
    (generate_content : String → String → GenResponse) (prompt : String) :
    ((generate_content settings.gemini_model_lite prompt).truthy = false →
      generate_with_lite settings generate_content prompt = none) ∧
    ((generate_content settings.gemini_model_lite prompt).truthy = true →
      generate_with_lite settings generate_content prompt =
        some (generate_content settings.gemini_model_lite prompt).text) := by
  constructor <;> intro h <;> simp [generate_with_lite, h]

theorem generate_with_lite_text_verbatim_witness :
    generate_with_lite ⟨"g-lite", "g-flash", "g-pro"⟩
        (fun _ _ => ⟨true, "  padded text \n"⟩) "p" = some "  padded text \n" ∧
    generate_with_lite ⟨"g-lite", "g-flash", "g-pro"⟩
        (fun _ _ => ⟨false, "ignored"⟩) "p" = none :=
  ⟨(generate_with_lite_text_verbatim _ _ _).2 rfl,
   (generate_with_lite_text_verbatim _ _ _).1 rfl⟩

/-! ## Claims about the extractor -/

/-- C6: whenever the strict parse of the preprocessed text fails, the
extractor parses exactly the span from the first opening brace to the
last closing brace of that text, and returns its parse result when that
span is valid JSON. -/
theorem parse_json_response_brace_fallback (response_text : List Char)
    (i j : Nat) (v : Json)
    (hne : response_text ≠ [])
    (hstrict : json_loads (preprocess response_text) = none)
    (hi : firstIdx '{' (preprocess response_text) = some i)
    (hj : lastIdx '}' (preprocess response_text) = some j)
    (hij : i < j)
    (hsub : json_loads (((preprocess response_text).drop i).take (j - i + 1)) =
      some v) :
    parse_json_response response_text = .ok v := by
  have hbs : braceSearch (preprocess response_text) =
      some (((preprocess response_text).drop i).take (j - i + 1)) := by
    simp [braceSearch, hi, hj, hij]
  simp [parse_json_response, hne, hstrict, hbs, hsub]

theorem parse_json_response_brace_fallback_witness :
    parse_json_response
        (String.toList "Here is your answer: \x7b\"ok\": true\x7d - hope that helps") =
      .ok (.obj [("ok", .bool true)]) :=
  parse_json_response_brace_fallback _ 21 32 _ (by decide) (by rfl) (by rfl)
    (by rfl) (by omega) (by rfl)

/-- C7 names a code bug: the strict-parse branch returns whatever value
`json.loads` yields, so for the input `[1, 2, 3]` the extractor
successfully returns a JSON list, contradicting both the claim and the
function's own `-> Dict` annotation. -/
theorem parse_json_response_nonobject_result :
    parse_json_response (String.toList "[1, 2, 3]") =
      .ok (.arr [.num 1, .num 2, .num 3]) ∧
    Json.isObj (.arr [.num 1, .num 2, .num 3]) = false :=
  ⟨rfl, rfl⟩

/-- C8, as written, fails: when the brace-extraction span exists but is
itself invalid JSON (as for the input consisting of an opening brace,
the word oops, and a closing brace), the second `json.loads` call is
outside any `try`, so its `JSONDecodeError` propagates; the extractor
does not reach the could-not-parse `ValueError` of line 107. -/
theorem parse_json_response_fallback_error_counterexample :
    parse_json_response (String.toList "\x7boops\x7d") = .error .decodeError ∧
    ParseErr.decodeError ≠ ParseErr.couldNotParse :=
  ⟨rfl, by decide⟩

/-- C8 (amended): empty input fails immediately with the empty-input
error; when the strict parse fails and no brace span exists, the
extractor fails with the could-not-parse error; when the span exists
but fails to parse, that parse error itself propagates.  No further
fallback or repair is applied in any case. -/
theorem parse_json_response_failure_modes (response_text : List Char) :
    (response_text = [] →
      parse_json_response response_text = .error .emptyResponse) ∧
    (response_text ≠ [] → json_loads (preprocess response_text) = none →
      (braceSearch (preprocess response_text) = none →
        parse_json_response response_text = .error .couldNotParse) ∧
      (∀ sub, braceSearch (preprocess response_text) = some sub →
        json_loads sub = none →
        parse_json_response response_text = .error .decodeError)) := by
  refine ⟨fun h => by simp [parse_json_response, h], fun hne hloads => ⟨?_, ?_⟩⟩
  · intro hnone
    simp [parse_json_response, hne, hloads, hnone]
  · intro sub hsub hsubloads
    simp [parse_json_response, hne, hloads, hsub, hsubloads]

theorem parse_json_response_failure_modes_witness :
    parse_json_response ([] : List Char) = .error .emptyResponse ∧
    parse_json_response (String.toList "not json at all") =
      .error .couldNotParse ∧
    parse_json_response (String.toList "\x7bnope\x7d") = .error .decodeError :=
  ⟨(parse_json_response_failure_modes []).1 rfl,
   ((parse_json_response_failure_modes _).2 (by decide) (by rfl)).1 (by rfl),
   ((parse_json_response_failure_modes _).2 (by decide) (by rfl)).2 _ (by rfl)
     (by rfl)⟩

/-- C10: a non-empty, all-whitespace input passes the emptiness check of
line 83, is trimmed to nothing, and fails with the could-not-parse
error — an error distinguishable from the empty-input one. -/
theorem parse_json_response_whitespace_only (response_text : List Char)
    (hne : response_text ≠ [])
    (hws : ∀ c ∈ response_text, c.isWhitespace) :
    parse_json_response response_text = .error .couldNotParse ∧
    ParseErr.couldNotParse ≠ ParseErr.emptyResponse := by
  have hstrip : lstrip response_text = [] :=
    List.dropWhile_eq_nil_iff.mpr hws
  have h1 : pyStrip response_text = [] := by
    unfold pyStrip
    rw [hstrip]
    rfl
  have hpre : preprocess response_text = [] := by
    unfold preprocess
    rw [h1]
    rfl
  refine ⟨?_, by decide⟩
  simp only [parse_json_response, if_neg hne, hpre]
  rfl

theorem parse_json_response_whitespace_only_witness :
    parse_json_response (String.toList " \n\t ") = .error .couldNotParse :=
  (parse_json_response_whitespace_only _ (by decide) (by decide)).1

/-! ## Toward the codec round-trip: whitespace plumbing -/

theorem dropWhile_append_of_forall {p : Char → Bool} :
    ∀ (ws x : List Char), (∀ c ∈ ws, p c = true) →
      (ws ++ x).dropWhile p = x.dropWhile p
  | [], _, _ => rfl
  | c :: ws, x, h => by
    rw [List.cons_append, List.dropWhile_cons, if_pos (h c (by simp))]
    exact dropWhile_append_of_forall ws x (fun d hd => h d (by simp [hd]))

theorem dropWhile_cons_of_neg {p : Char → Bool} {c : Char} (x : List Char)
    (h : p c = false) : (c :: x).dropWhile p = c :: x := by
  rw [List.dropWhile_cons, h]
  simp

theorem skipWs_ws_append (ws x : List Char) (h : ∀ c ∈ ws, c.isWhitespace) :
    skipWs (ws ++ x) = skipWs x :=
  dropWhile_append_of_forall ws x h

theorem skipWs_cons_of_not (c : Char) (x : List Char)
    (h : c.isWhitespace = false) : skipWs (c :: x) = c :: x :=
  dropWhile_cons_of_neg x h

theorem lstrip_ws_append (ws x : List Char) (h : ∀ c ∈ ws, c.isWhitespace) :
    lstrip (ws ++ x) = lstrip x :=
  dropWhile_append_of_forall ws x h

theorem lstrip_cons_of_not (c : Char) (x : List Char)
    (h : c.isWhitespace = false) : lstrip (c :: x) = c :: x :=
  dropWhile_cons_of_neg x h

theorem rstrip_append_ws (x ws : List Char) (h : ∀ c ∈ ws, c.isWhitespace) :
    rstrip (x ++ ws) = rstrip x := by
  unfold rstrip
  rw [List.reverse_append,
    dropWhile_append_of_forall _ _ (fun c hc => h c (List.mem_reverse.mp hc))]

theorem rstrip_append_last (x : List Char) (c : Char)
    (h : c.isWhitespace = false) : rstrip (x ++ [c]) = x ++ [c] := by
  unfold rstrip
  rw [List.reverse_append, List.reverse_singleton, List.singleton_append,
    dropWhile_cons_of_neg _ h, List.reverse_cons, List.reverse_reverse]

theorem parseVal_ws_prefix (fuel : Nat) (ws cs : List Char)
    (h : ∀ c ∈ ws, c.isWhitespace) :
    parseVal fuel (ws ++ cs) = parseVal fuel cs := by
  cases fuel with
  | zero => rfl
  | succ f => simp only [parseVal, skipWs_ws_append ws cs h]

theorem parseMembers_ws_prefix (fuel : Nat) (ws cs : List Char)
    (h : ∀ c ∈ ws, c.isWhitespace) :
    parseMembers fuel (ws ++ cs) = parseMembers fuel cs := by
  cases fuel with
  | zero => rfl
  | succ f => simp only [parseMembers, skipWs_ws_append ws cs h]

/-! ## Toward the codec round-trip: string literals -/

theorem hexVal?_hexChar (d : Nat) (h : d < 16) : hexVal? (hexChar d) = some d := by
  interval_cases d <;> decide

theorem hex4Val?_control (m : Nat) (h : m < 256) :
    hex4Val? '0' '0' (hexChar (m / 16)) (hexChar (m % 16)) = some m := by
  rw [hex4Val?, show hexVal? '0' = some 0 from rfl,
    hexVal?_hexChar (m / 16) (by omega), hexVal?_hexChar (m % 16) (by omega)]
  show some (((0 * 16 + 0) * 16 + m / 16) * 16 + m % 16) = some m
  congr 1
  omega

theorem scanStr_unicode (acc : List Char) (h1 h2 h3 h4 : Char)
    (rest : List Char) :
    scanStr acc ('\\' :: 'u' :: h1 :: h2 :: h3 :: h4 :: rest) =
      match hex4Val? h1 h2 h3 h4 with
      | some n =>
        if 55296 ≤ n ∧ n ≤ 57343 then none
        else scanStr (Char.ofNat n :: acc) rest
      | none => none := rfl

/-- One-step unfolding of `scanStr` on a cons cell. -/
theorem scanStr_cons (acc : List Char) (c : Char) (rest : List Char) :
    scanStr acc (c :: rest) =
      if c = '"' then some (String.mk acc.reverse, rest)
      else if c = '\\' then
        match rest with
        | [] => none
        | e :: rest2 =>
          if e = 'u' then
            match rest2 with
            | h1 :: h2 :: h3 :: h4 :: rest3 =>
              match hex4Val? h1 h2 h3 h4 with
              | some n =>
                if 55296 ≤ n ∧ n ≤ 57343 then none
                else scanStr (Char.ofNat n :: acc) rest3
              | none => none
            | _ => none
          else
            match escVal? e with
            | some ch => scanStr (ch :: acc) rest2
            | none => none
      else if c.toNat < 32 then none
      else scanStr (c :: acc) rest := by
  rw [scanStr.eq_def]

/-- Scanning one escaped character undoes the escaping. -/
theorem scanStr_escape (c : Char) (acc rest : List Char) :
    scanStr acc (escChar c ++ rest) = scanStr (c :: acc) rest := by
  by_cases h1 : c = '"'
  · subst h1
    rw [show escChar '"' ++ rest = '\\' :: '"' :: rest from rfl, scanStr.eq_def]
    rfl
  by_cases h2 : c = '\\'
  · subst h2
    rw [show escChar '\\' ++ rest = '\\' :: '\\' :: rest from rfl, scanStr.eq_def]
    rfl
  by_cases h3 : c = '\x08'
  · subst h3
    rw [show escChar '\x08' ++ rest = '\\' :: 'b' :: rest from rfl, scanStr.eq_def]
    rfl
  by_cases h4 : c = '\x0c'
  · subst h4
    rw [show escChar '\x0c' ++ rest = '\\' :: 'f' :: rest from rfl, scanStr.eq_def]
    rfl
  by_cases h5 : c = '\n'
  · subst h5
    rw [show escChar '\n' ++ rest = '\\' :: 'n' :: rest from rfl, scanStr.eq_def]
    rfl
  by_cases h6 : c = '\r'
  · subst h6
    rw [show escChar '\r' ++ rest = '\\' :: 'r' :: rest from rfl, scanStr.eq_def]
    rfl
  by_cases h7 : c = '\t'
  · subst h7
    rw [show escChar '\t' ++ rest = '\\' :: 't' :: rest from rfl, scanStr.eq_def]
    rfl
  by_cases h8 : c.toNat < 32
  · have hesc : escChar c =
        ['\\', 'u', '0', '0', hexChar (c.toNat / 16), hexChar (c.toNat % 16)] := by
      rw [escChar, if_neg h1, if_neg h2, if_neg h3, if_neg h4, if_neg h5,
        if_neg h6, if_neg h7, if_pos h8]
    rw [hesc]
    show scanStr acc
      ('\\' :: 'u' :: '0' :: '0' :: hexChar (c.toNat / 16) ::
        hexChar (c.toNat % 16) :: rest) = scanStr (c :: acc) rest
    rw [scanStr_unicode, hex4Val?_control c.toNat (by omega)]
    show (if 55296 ≤ c.toNat ∧ c.toNat ≤ 57343 then none
      else scanStr (Char.ofNat c.toNat :: acc) rest) = scanStr (c :: acc) rest
    rw [if_neg (by omega), Char.ofNat_toNat]
  · have hesc : escChar c = [c] := by
      rw [escChar, if_neg h1, if_neg h2, if_neg h3, if_neg h4, if_neg h5,
        if_neg h6, if_neg h7, if_neg h8]
    rw [hesc, List.singleton_append, scanStr_cons, if_neg h1, if_neg h2,
      if_neg h8]

/-- Scanning a fully escaped body stops exactly at the closing quote. -/
theorem scanStr_flatMap (cs : List Char) : ∀ (acc rest : List Char),
    scanStr acc (cs.flatMap escChar ++ '"' :: rest) =
      some (String.mk (acc.reverse ++ cs), rest) := by
  induction cs with
  | nil =>
    intro acc rest
    rw [List.flatMap_nil, List.nil_append, scanStr_cons, if_pos rfl]
    simp
  | cons c cs ih =>
    intro acc rest
    rw [List.flatMap_cons, List.append_assoc, scanStr_escape, ih]
    simp

/-- The string codec round-trip: scanning a dumped string body recovers
the string and leaves the remainder untouched. -/
theorem scanStr_dumpStr (s : String) (rest : List Char) :
    scanStr [] (s.toList.flatMap escChar ++ '"' :: rest) = some (s, rest) := by
  rw [scanStr_flatMap]
  rfl

/-! ## Toward the codec round-trip: numbers -/

theorem digitChar_isDigit (d : Nat) (h : d < 10) :
    (Char.ofNat (48 + d)).isDigit = true := by
  interval_cases d <;> decide

theorem digitChar_toNat (d : Nat) (h : d < 10) :
    (Char.ofNat (48 + d)).toNat = 48 + d := by
  interval_cases d <;> decide

theorem digitChar_ne_zero (d : Nat) (h1 : 1 ≤ d) (h2 : d < 10) :
    Char.ofNat (48 + d) ≠ '0' := by
  interval_cases d <;> decide

theorem digit_not_minus {c : Char} (h : c.isDigit = true) : ¬ c = '-' := by
  intro h2
  subst h2
  exact absurd h (by decide)

/-- A digit character is none of the characters the value dispatcher
tests for, and is not whitespace. -/
theorem digit_facts {c : Char} (h : c.isDigit = true) :
    c.isWhitespace = false ∧ ¬ c = '{' ∧ ¬ c = '[' ∧ ¬ c = '"' ∧ ¬ c = 't' ∧
    ¬ c = 'f' ∧ ¬ c = 'n' := by
  refine ⟨?_, ?_, ?_, ?_, ?_, ?_, ?_⟩
  · cases hw : c.isWhitespace
    · rfl
    · exfalso
      have hws : ((c = ' ' ∨ c = '\t') ∨ c = '\r') ∨ c = '\n' := by
        simpa [Char.isWhitespace] using hw
      rcases hws with ((rfl | rfl) | rfl) | rfl <;> exact absurd h (by decide)
  all_goals (intro h2; subst h2; exact absurd h (by decide))

theorem dumpNat_unfold (n : Nat) :
    dumpNat n =
      (if n < 10 then [] else dumpNat (n / 10)) ++ [Char.ofNat (48 + n % 10)] := by
  rw [dumpNat.eq_def]
  by_cases h : n < 10
  · rw [if_pos h, if_pos h, List.nil_append, Nat.mod_eq_of_lt h]
  · rw [if_neg h, if_neg h]

theorem dumpNat_digits (n : Nat) : ∀ c ∈ dumpNat n, c.isDigit = true := by
  induction n using Nat.strongRecOn with
  | _ n ih =>
    rw [dumpNat_unfold]
    intro c hc
    rw [List.mem_append] at hc
    rcases hc with hc | hc
    · by_cases h : n < 10
      · rw [if_pos h] at hc
        simp at hc
      · rw [if_neg h] at hc
        exact ih (n / 10) (by omega) c hc
    · rw [List.mem_singleton] at hc
      subst hc
      exact digitChar_isDigit (n % 10) (by omega)

theorem dumpNat_ne_nil (n : Nat) : dumpNat n ≠ [] := by
  rw [dumpNat_unfold]
  simp

theorem digitsVal_append (ds : List Char) (c : Char) :
    digitsVal (ds ++ [c]) = 10 * digitsVal ds + (c.toNat - 48) := by
  unfold digitsVal
  rw [List.foldl_append]
  rfl

theorem digitsVal_dumpNat (n : Nat) : digitsVal (dumpNat n) = n := by
  induction n using Nat.strongRecOn with
  | _ n ih =>
    rw [dumpNat_unfold, digitsVal_append, digitChar_toNat (n % 10) (by omega)]
    by_cases h : n < 10
    · rw [if_pos h]
      have h0 : digitsVal [] = 0 := rfl
      rw [h0]
      omega
    · rw [if_neg h, ih (n / 10) (by omega)]
      omega

theorem dumpNat_head_pos : ∀ n : Nat, 1 ≤ n →
    ∃ c t, dumpNat n = c :: t ∧ c ≠ '0' := by
  intro n
  induction n using Nat.strongRecOn with
  | _ n ih =>
    intro h
    by_cases h10 : n < 10
    · refine ⟨Char.ofNat (48 + n), [], ?_, digitChar_ne_zero n h h10⟩
      rw [dumpNat.eq_def, if_pos h10]
    · obtain ⟨c, t, hct, hc0⟩ := ih (n / 10) (by omega) (by omega)
      refine ⟨c, t ++ [Char.ofNat (48 + n % 10)], ?_, hc0⟩
      rw [dumpNat_unfold, if_neg h10, hct, List.cons_append]

/-- The dumped digit run never trips the leading-zero rejection of the
number scanner. -/
theorem dumpNat_no_leading_zero (n : Nat) :
    ¬ (1 < (dumpNat n).length ∧ (dumpNat n).head? = some '0') := by
  by_cases h10 : n < 10
  · rw [dumpNat.eq_def, if_pos h10]
    simp
  · obtain ⟨c, t, hct, hc0⟩ := dumpNat_head_pos n (by omega)
    rw [hct]
    simp [hc0]

theorem takeWhile_digit_run : ∀ (ds rest : List Char),
    (∀ c ∈ ds, c.isDigit = true) → noDigitHead rest = true →
    (ds ++ rest).takeWhile Char.isDigit = ds ∧
    (ds ++ rest).dropWhile Char.isDigit = rest
  | [], rest, _, hrest => by
    refine ⟨?_, ?_⟩ <;> (cases rest with
      | nil => rfl
      | cons c t => ?_)
    · have hc : c.isDigit = false := by simpa [noDigitHead] using hrest
      rw [List.nil_append, List.takeWhile_cons, hc]
      simp
    · have hc : c.isDigit = false := by simpa [noDigitHead] using hrest
      rw [List.nil_append]
      exact dropWhile_cons_of_neg t hc
  | d :: ds, rest, hds, hrest => by
    have hd : d.isDigit = true := hds d (by simp)
    obtain ⟨h1, h2⟩ :=
      takeWhile_digit_run ds rest (fun c hc => hds c (by simp [hc])) hrest
    refine ⟨?_, ?_⟩
    · rw [List.cons_append, List.takeWhile_cons, hd]
      simp [h1]
    · rw [List.cons_append, List.dropWhile_cons, hd]
      simp [h2]

/-- The number scanner inverts integer dumping whenever the remainder
does not begin with a digit. -/
theorem scanNum_dumpInt (n : Int) (rest : List Char)
    (hrest : noDigitHead rest = true) :
    scanNum (dumpInt n ++ rest) = some (n, rest) := by
  obtain ⟨tk, dk⟩ :=
    takeWhile_digit_run (dumpNat n.natAbs) rest (dumpNat_digits _) hrest
  by_cases hneg : n < 0
  · have hd : dumpInt n = '-' :: dumpNat n.natAbs := by
      rw [dumpInt, if_pos hneg]
    rw [hd, List.cons_append]
    simp only [scanNum, List.head?_cons, List.tail_cons, eq_self_iff_true,
      if_true, tk, dk, if_neg (dumpNat_ne_nil n.natAbs),
      if_neg (dumpNat_no_leading_zero n.natAbs), digitsVal_dumpNat,
      Option.some.injEq, Prod.mk.injEq]
    exact ⟨by omega, trivial⟩
  · have hd : dumpInt n = dumpNat n.natAbs := by
      rw [dumpInt, if_neg hneg]
    obtain ⟨c, t, hct⟩ : ∃ c t, dumpNat n.natAbs = c :: t := by
      cases h : dumpNat n.natAbs with
      | nil => exact absurd h (dumpNat_ne_nil _)
      | cons c t => exact ⟨c, t, rfl⟩
    have hcd : c.isDigit = true := dumpNat_digits _ c (by rw [hct]; simp)
    have hlz := dumpNat_no_leading_zero n.natAbs
    have hdv := digitsVal_dumpNat n.natAbs
    rw [hct] at tk dk hlz hdv
    rw [List.cons_append] at tk dk
    rw [hd, hct, List.cons_append]
    simp only [List.head?_cons, Option.some.injEq] at hlz
    simp only [scanNum, List.head?_cons, Option.some.injEq,
      digit_not_minus hcd, if_false, tk, dk, hdv, List.cons_ne_nil, hlz,
      Prod.mk.injEq]
    exact ⟨by omega, trivial⟩

/-- Dumped integers start with a minus sign or a digit. -/
theorem dumpInt_head (n : Int) :
    ∃ c t, dumpInt n = c :: t ∧ (c = '-' ∨ c.isDigit = true) := by
  by_cases hneg : n < 0
  · exact ⟨'-', dumpNat n.natAbs, by rw [dumpInt, if_pos hneg], .inl rfl⟩
  · obtain ⟨c, t, hct⟩ : ∃ c t, dumpNat n.natAbs = c :: t := by
      cases h : dumpNat n.natAbs with
      | nil => exact absurd h (dumpNat_ne_nil _)
      | cons c t => exact ⟨c, t, rfl⟩
    refine ⟨c, t, by rw [dumpInt, if_neg hneg, hct], .inr ?_⟩
    exact dumpNat_digits _ c (by rw [hct]; simp)

/-! ## Toward the codec round-trip: the value dispatcher -/

/-- The dispatcher recognises a dumped integer and hands it to the
number scanner. -/
theorem parseVal_dumpInt (n : Int) (f : Nat) (rest : List Char)
    (hrest : noDigitHead rest = true) :
    parseVal (f + 1) (dumpInt n ++ rest) = some (.num n, rest) := by
  obtain ⟨c0, t0, h0, hc0⟩ := dumpInt_head n
  have hfacts : c0.isWhitespace = false ∧ ¬ c0 = '{' ∧ ¬ c0 = '[' ∧
      ¬ c0 = '"' ∧ ¬ c0 = 't' ∧ ¬ c0 = 'f' ∧ ¬ c0 = 'n' := by
    rcases hc0 with rfl | hdig
    · exact ⟨by decide, by decide, by decide, by decide, by decide, by decide,
        by decide⟩
    · exact digit_facts hdig
  obtain ⟨hws, hb1, hb2, hb3, hb4, hb5, hb6⟩ := hfacts
  rw [h0, List.cons_append]
  simp only [parseVal, skipWs_cons_of_not c0 (t0 ++ rest) hws, eq_false hb1,
    eq_false hb2, eq_false hb3, eq_false hb4, eq_false hb5, eq_false hb6,
    eq_true hc0, if_false, if_true]
  rw [← List.cons_append, ← h0, scanNum_dumpInt n rest hrest]

/-- The dispatcher recognises a dumped string literal and hands its body
to the string scanner. -/
theorem parseVal_dumpStr (s : String) (f : Nat) (rest : List Char) :
    parseVal (f + 1) (dumpStr s ++ rest) = some (.str s, rest) := by
  have harg : dumpStr s ++ rest =
      '"' :: (s.toList.flatMap escChar ++ '"' :: rest) := by
    rw [dumpStr, List.cons_append, List.append_assoc, List.singleton_append]
  rw [harg]
  simp only [parseVal,
    skipWs_cons_of_not '"' (s.toList.flatMap escChar ++ '"' :: rest) (by decide),
    eq_false (by decide : ¬ ('"' : Char) = '{'),
    eq_false (by decide : ¬ ('"' : Char) = '['), eq_self_iff_true,
    if_false, if_true, scanStr_dumpStr s rest]

/-- A remainder opening with a closing brace or a separator cannot
extend a digit run. -/
theorem noDigitHead_moreMembers (ms : List (String × Json)) (rest : List Char) :
    noDigitHead (dumpMoreMembers ms ++ '}' :: rest) = true := by
  cases ms with
  | nil => rfl
  | cons m ms =>
    simp only [dumpMoreMembers, List.cons_append]
    rfl

theorem noDigitHead_moreElems (es : List Json) (rest : List Char) :
    noDigitHead (dumpMoreElems es ++ ']' :: rest) = true := by
  cases es with
  | nil => rfl
  | cons e es =>
    simp only [dumpMoreElems, List.cons_append]
    rfl

/-- Every dumped value begins with a character that is not whitespace
and closes neither an array nor an object. -/
theorem json_dumps_head (v : Json) :
    ∃ c t, json_dumps v = c :: t ∧ c.isWhitespace = false ∧ ¬ c = ']' ∧
      ¬ c = '}' := by
  cases v with
  | null =>
    exact ⟨'n', ['u', 'l', 'l'], by simp only [json_dumps]; rfl, by decide,
      by decide, by decide⟩
  | bool b =>
    cases b with
    | true =>
      exact ⟨'t', ['r', 'u', 'e'], by simp only [json_dumps]; rfl, by decide,
        by decide, by decide⟩
    | false =>
      exact ⟨'f', ['a', 'l', 's', 'e'], by simp only [json_dumps]; rfl,
        by decide, by decide, by decide⟩
  | str s =>
    exact ⟨'"', s.toList.flatMap escChar ++ ['"'], by simp [json_dumps, dumpStr],
      by decide, by decide, by decide⟩
  | arr es =>
    cases es with
    | nil =>
      exact ⟨'[', [']'], by simp [json_dumps], by decide, by decide, by decide⟩
    | cons e es =>
      exact ⟨'[', json_dumps e ++ (dumpMoreElems es ++ [']']),
        by simp [json_dumps], by decide, by decide, by decide⟩
  | obj ms =>
    cases ms with
    | nil =>
      exact ⟨'{', ['}'], by simp [json_dumps], by decide, by decide, by decide⟩
    | cons m ms =>
      exact ⟨'{', dumpMember m ++ (dumpMoreMembers ms ++ ['}']),
        by simp [json_dumps], by decide, by decide, by decide⟩
  | num n =>
    obtain ⟨c, t, hct, hc⟩ := dumpInt_head n
    refine ⟨c, t, by simp [json_dumps, hct], ?_, ?_, ?_⟩
    · rcases hc with rfl | hdig
      · decide
      · exact (digit_facts hdig).1
    · rcases hc with rfl | hdig
      · decide
      · intro h2
        subst h2
        exact absurd hdig (by decide)
    · rcases hc with rfl | hdig
      · decide
      · intro h2
        subst h2
        exact absurd hdig (by decide)

theorem parseElems_ws_prefix (fuel : Nat) (ws cs : List Char)
    (h : ∀ c ∈ ws, c.isWhitespace) :
    parseElems fuel (ws ++ cs) = parseElems fuel cs := by
  cases fuel with
  | zero => rfl
  | succ f => simp only [parseElems, parseVal_ws_prefix f ws cs h]

/-! ## The codec round-trip -/

mutual

/-- Parsing a dumped value recovers it exactly, with the remainder
untouched, whenever the fuel exceeds the dumped length and the remainder
cannot extend a digit run. -/
theorem parseVal_dumps : ∀ (v : Json) (fuel : Nat) (rest : List Char),
    (json_dumps v).length < fuel → noDigitHead rest = true →
    parseVal fuel (json_dumps v ++ rest) = some (v, rest)
  | .null, fuel, rest, hf, _ => by
    cases fuel with
    | zero => exact absurd hf (by omega)
    | succ f =>
      have harg : json_dumps .null ++ rest = 'n' :: 'u' :: 'l' :: 'l' :: rest := by
        simp only [json_dumps]
        rfl
      rw [harg]
      rfl
  | .bool true, fuel, rest, hf, _ => by
    cases fuel with
    | zero => exact absurd hf (by omega)
    | succ f =>
      have harg : json_dumps (.bool true) ++ rest =
          't' :: 'r' :: 'u' :: 'e' :: rest := by
        simp only [json_dumps]
        rfl
      rw [harg]
      rfl
  | .bool false, fuel, rest, hf, _ => by
    cases fuel with
    | zero => exact absurd hf (by omega)
    | succ f =>
      have harg : json_dumps (.bool false) ++ rest =
          'f' :: 'a' :: 'l' :: 's' :: 'e' :: rest := by
        simp only [json_dumps]
        rfl
      rw [harg]
      rfl
  | .num n, fuel, rest, hf, hrest => by
    cases fuel with
    | zero => exact absurd hf (by omega)
    | succ f =>
      rw [show json_dumps (.num n) = dumpInt n by simp [json_dumps]]
      exact parseVal_dumpInt n f rest hrest
  | .str s, fuel, rest, hf, _ => by
    cases fuel with
    | zero => exact absurd hf (by omega)
    | succ f =>
      rw [show json_dumps (.str s) = dumpStr s by simp [json_dumps]]
      exact parseVal_dumpStr s f rest
  | .arr [], fuel, rest, hf, _ => by
    cases fuel with
    | zero => exact absurd hf (by omega)
    | succ f =>
      rw [show json_dumps (.arr []) ++ rest = '[' :: ']' :: rest by
        simp [json_dumps]]
      rfl
  | .obj [], fuel, rest, hf, _ => by
    cases fuel with
    | zero => exact absurd hf (by omega)
    | succ f =>
      rw [show json_dumps (.obj []) ++ rest = '{' :: '}' :: rest by
        simp [json_dumps]]
      rfl
  | .arr (e :: es), fuel, rest, hf, _ => by
    cases fuel with
    | zero => exact absurd hf (by omega)
    | succ f =>
      simp only [json_dumps, List.length_cons, List.length_append] at hf
      obtain ⟨c2, t2, h2, hw2, hbr2, _⟩ := json_dumps_head e
      have harg : json_dumps (.arr (e :: es)) ++ rest =
          '[' :: (json_dumps e ++ (dumpMoreElems es ++ ']' :: rest)) := by
        simp [json_dumps]
      have harg2 : json_dumps e ++ (dumpMoreElems es ++ ']' :: rest) =
          c2 :: (t2 ++ (dumpMoreElems es ++ ']' :: rest)) := by
        rw [h2, List.cons_append]
      have hkey := parseElems_dumps e es f rest (by omega)
      rw [harg]
      simp only [parseVal, skipWs_cons_of_not '[' _ (by decide),
        eq_false (by decide : ¬ ('[' : Char) = '{'), eq_self_iff_true,
        if_false, if_true]
      rw [harg2, skipWs_cons_of_not c2 _ hw2]
      simp only [eq_false hbr2, if_false]
      rw [← harg2, hkey]
  | .obj ((k, v) :: ms), fuel, rest, hf, _ => by
    cases fuel with
    | zero => exact absurd hf (by omega)
    | succ f =>
      simp only [json_dumps, List.length_cons, List.length_append] at hf
      have harg : json_dumps (.obj ((k, v) :: ms)) ++ rest =
          '{' :: (dumpMember (k, v) ++ (dumpMoreMembers ms ++ '}' :: rest)) := by
        simp [json_dumps]
      have harg2 : dumpMember (k, v) ++ (dumpMoreMembers ms ++ '}' :: rest) =
          '"' :: (k.toList.flatMap escChar ++
            ('"' :: (':' :: (' ' :: (json_dumps v ++
              (dumpMoreMembers ms ++ '}' :: rest)))))) := by
        simp [dumpMember, dumpStr]
      have hkey := parseMembers_dumps k v ms f rest (by omega)
      rw [harg]
      simp only [parseVal, skipWs_cons_of_not '{' _ (by decide),
        eq_self_iff_true, if_true]
      rw [harg2, skipWs_cons_of_not '"' _ (by decide)]
      simp only [eq_false (by decide : ¬ ('"' : Char) = '}'), if_false]
      rw [← harg2, hkey]
termination_by v _ _ _ _ => sizeOf v
decreasing_by all_goals (simp_wf; try omega)

/-- Parsing a dumped member list (one or more members) consumes it up to
and including the closing brace. -/
theorem parseMembers_dumps : ∀ (k : String) (v : Json)
    (ms : List (String × Json)) (fuel : Nat) (rest : List Char),
    (dumpMember (k, v)).length + (dumpMoreMembers ms).length + 1 < fuel →
    parseMembers fuel (dumpMember (k, v) ++ (dumpMoreMembers ms ++ '}' :: rest)) =
      some ((k, v) :: ms, rest)
  | k, v, [], fuel, rest, hf => by
    cases fuel with
    | zero => exact absurd hf (by omega)
    | succ f =>
      simp only [dumpMember, dumpStr, List.length_cons, List.length_append] at hf
      have harg : dumpMember (k, v) ++ (dumpMoreMembers [] ++ '}' :: rest) =
          '"' :: (k.toList.flatMap escChar ++
            ('"' :: (':' :: (' ' :: (json_dumps v ++
              (dumpMoreMembers [] ++ '}' :: rest)))))) := by
        simp [dumpMember, dumpStr]
      have hv : parseVal f
          (' ' :: (json_dumps v ++ (dumpMoreMembers [] ++ '}' :: rest))) =
          some (v, dumpMoreMembers [] ++ '}' :: rest) := by
        rw [show (' ' :: (json_dumps v ++ (dumpMoreMembers [] ++ '}' :: rest))) =
          [' '] ++ (json_dumps v ++ (dumpMoreMembers [] ++ '}' :: rest)) from rfl,
          parseVal_ws_prefix f [' '] _ (by decide)]
        exact parseVal_dumps v f _ (by omega) (noDigitHead_moreMembers [] rest)
      rw [harg]
      simp only [parseMembers, skipWs_cons_of_not '"' _ (by decide),
        eq_self_iff_true, if_true, scanStr_dumpStr k,
        skipWs_cons_of_not ':' _ (by decide), hv]
      simp only [dumpMoreMembers, List.nil_append,
        skipWs_cons_of_not '}' _ (by decide)]
  | k, v, (k2, v2) :: ms2, fuel, rest, hf => by
    cases fuel with
    | zero => exact absurd hf (by omega)
    | succ f =>
      simp only [dumpMember, dumpStr, List.length_cons, List.length_append] at hf
      have harg : dumpMember (k, v) ++ (dumpMoreMembers ((k2, v2) :: ms2) ++ '}' :: rest) =
          '"' :: (k.toList.flatMap escChar ++
            ('"' :: (':' :: (' ' :: (json_dumps v ++
              (dumpMoreMembers ((k2, v2) :: ms2) ++ '}' :: rest)))))) := by
        simp [dumpMember, dumpStr]
      have hv : parseVal f
          (' ' :: (json_dumps v ++ (dumpMoreMembers ((k2, v2) :: ms2) ++ '}' :: rest))) =
          some (v, dumpMoreMembers ((k2, v2) :: ms2) ++ '}' :: rest) := by
        rw [show (' ' :: (json_dumps v ++ (dumpMoreMembers ((k2, v2) :: ms2) ++ '}' :: rest))) =
          [' '] ++ (json_dumps v ++ (dumpMoreMembers ((k2, v2) :: ms2) ++ '}' :: rest)) from rfl,
          parseVal_ws_prefix f [' '] _ (by decide)]
        exact parseVal_dumps v f _ (by omega) (noDigitHead_moreMembers _ rest)
      rw [harg]
      simp only [parseMembers, skipWs_cons_of_not '"' _ (by decide),
        eq_self_iff_true, if_true, scanStr_dumpStr k,
        skipWs_cons_of_not ':' _ (by decide), hv]
      have hms : dumpMoreMembers ((k2, v2) :: ms2) ++ '}' :: rest =
          ',' :: (' ' :: (dumpMember (k2, v2) ++
            (dumpMoreMembers ms2 ++ '}' :: rest))) := by
        simp [dumpMoreMembers]
      have hrec : parseMembers f
          (' ' :: (dumpMember (k2, v2) ++ (dumpMoreMembers ms2 ++ '}' :: rest))) =
          some ((k2, v2) :: ms2, rest) := by
        rw [show (' ' :: (dumpMember (k2, v2) ++
            (dumpMoreMembers ms2 ++ '}' :: rest))) =
          [' '] ++ (dumpMember (k2, v2) ++ (dumpMoreMembers ms2 ++ '}' :: rest))
          from rfl, parseMembers_ws_prefix f [' '] _ (by decide)]
        exact parseMembers_dumps k2 v2 ms2 f rest (by
          simp only [dumpMoreMembers, dumpMember, dumpStr, List.length_cons,
            List.length_append] at hf ⊢
          omega)
      simp only [hms, skipWs_cons_of_not ',' _ (by decide), hrec]
termination_by k v ms _ _ _ => 1 + sizeOf v + sizeOf ms
decreasing_by all_goals (simp_wf; try omega)

/-- Parsing a dumped element list (one or more elements) consumes it up
to and including the closing bracket. -/
theorem parseElems_dumps : ∀ (e : Json) (es : List Json) (fuel : Nat)
    (rest : List Char),
    (json_dumps e).length + (dumpMoreElems es).length + 1 < fuel →
    parseElems fuel (json_dumps e ++ (dumpMoreElems es ++ ']' :: rest)) =
      some (e :: es, rest)
  | e, [], fuel, rest, hf => by
    cases fuel with
    | zero => exact absurd hf (by omega)
    | succ f =>
      have hv : parseVal f (json_dumps e ++ (dumpMoreElems [] ++ ']' :: rest)) =
          some (e, dumpMoreElems [] ++ ']' :: rest) :=
        parseVal_dumps e f _ (by omega) (noDigitHead_moreElems [] rest)
      simp only [parseElems, hv]
      simp only [dumpMoreElems, List.nil_append,
        skipWs_cons_of_not ']' _ (by decide)]
  | e, e2 :: es2, fuel, rest, hf => by
    cases fuel with
    | zero => exact absurd hf (by omega)
    | succ f =>
      have hv : parseVal f
          (json_dumps e ++ (dumpMoreElems (e2 :: es2) ++ ']' :: rest)) =
          some (e, dumpMoreElems (e2 :: es2) ++ ']' :: rest) :=
        parseVal_dumps e f _ (by omega) (noDigitHead_moreElems _ rest)
      simp only [parseElems, hv]
      have hes : dumpMoreElems (e2 :: es2) ++ ']' :: rest =
          ',' :: (' ' :: (json_dumps e2 ++ (dumpMoreElems es2 ++ ']' :: rest))) := by
        simp [dumpMoreElems]
      have hrec : parseElems f
          (' ' :: (json_dumps e2 ++ (dumpMoreElems es2 ++ ']' :: rest))) =
          some (e2 :: es2, rest) := by
        rw [show (' ' :: (json_dumps e2 ++ (dumpMoreElems es2 ++ ']' :: rest))) =
          [' '] ++ (json_dumps e2 ++ (dumpMoreElems es2 ++ ']' :: rest))
          from rfl, parseElems_ws_prefix f [' '] _ (by decide)]
        exact parseElems_dumps e2 es2 f rest (by
          simp only [dumpMoreElems, List.length_cons, List.length_append] at hf ⊢
          omega)
      simp only [hes, skipWs_cons_of_not ',' _ (by decide), hrec]
termination_by e es _ _ _ => 1 + sizeOf e + sizeOf es
decreasing_by all_goals (simp_wf; try omega)

end

/-- The embedded codec round-trip: `json.loads` inverts `json.dumps`. -/
theorem json_loads_dumps (v : Json) : json_loads (json_dumps v) = some v := by
  unfold json_loads
  have h := parseVal_dumps v ((json_dumps v).length + 1) [] (by omega) rfl
  rw [List.append_nil] at h
  rw [h]
  rfl

/-! ## The fence-stripping pipeline on wrapped documents -/

theorem lstrip_sandwich (wsA : List Char) (c1 : Char) (t : List Char)
    (hA : ∀ c ∈ wsA, c.isWhitespace) (h1 : c1.isWhitespace = false) :
    lstrip (wsA ++ (c1 :: t)) = c1 :: t := by
  rw [lstrip_ws_append _ _ hA, lstrip_cons_of_not _ _ h1]

theorem rstrip_sandwich (p : List Char) (c2 : Char) (wsD : List Char)
    (hD : ∀ c ∈ wsD, c.isWhitespace) (h2 : c2.isWhitespace = false) :
    rstrip ((p ++ [c2]) ++ wsD) = p ++ [c2] := by
  rw [rstrip_append_ws _ _ hD, rstrip_append_last _ _ h2]

theorem isPrefixOf_append_self (l x : List Char) :
    l.isPrefixOf (l ++ x) = true := by
  rw [List.isPrefixOf_iff_prefix]
  exact List.prefix_append l x

theorem isSuffixOf_append_self (l x : List Char) :
    l.isSuffixOf (x ++ l) = true := by
  have h : (x ++ l).reverse = l.reverse ++ x.reverse := List.reverse_append x l
  simp [List.isSuffixOf, h, isPrefixOf_append_self]

/-- The JSON-labelled marker is not a prefix when the generic marker is
followed by anything but the letter j. -/
theorem jsonFence_not_prefix_plain (c : Char) (t : List Char) (hc : ¬ c = 'j') :
    jsonFence.isPrefixOf ('`' :: '`' :: '`' :: c :: t) = false := by
  have hc2 : ('j' == c) = false := by
    rw [beq_eq_false_iff_ne]
    exact fun h => hc h.symm
  simp [jsonFence, List.isPrefixOf, hc2]

/-- Dropping the labelled fence marker from a labelled-fenced text. -/
theorem stripLeadFence_json (V : List Char) :
    stripLeadFence (jsonFence ++ V) = V := by
  unfold stripLeadFence
  rw [if_pos (isPrefixOf_append_self jsonFence V),
    show (7 : Nat) = jsonFence.length from rfl, List.drop_left]

/-- Dropping the generic fence marker from a generically fenced text
whose contents do not begin with the letter j. -/
theorem stripLeadFence_plain (c : Char) (t : List Char) (hc : ¬ c = 'j') :
    stripLeadFence (plainFence ++ (c :: t)) = c :: t := by
  unfold stripLeadFence
  have hpp : plainFence ++ (c :: t) = '`' :: '`' :: '`' :: c :: t := rfl
  rw [hpp, jsonFence_not_prefix_plain c t hc]
  simp only [Bool.false_eq_true, if_false]
  rw [← hpp, if_pos (isPrefixOf_append_self plainFence (c :: t)),
    show (3 : Nat) = plainFence.length from rfl, List.drop_left]

theorem stripTrailFence_append (Y : List Char) :
    stripTrailFence (Y ++ plainFence) = Y := by
  unfold stripTrailFence
  rw [if_pos (isSuffixOf_append_self plainFence Y)]
  have hl : (Y ++ plainFence).length - 3 = Y.length := by
    simp [plainFence, List.length_append]
  rw [hl, List.take_left]

/-- The serialized form of an object is brace-delimited. -/
theorem json_dumps_obj_shape (fs : List (String × Json)) :
    ∃ mid, json_dumps (.obj fs) = '{' :: (mid ++ ['}']) := by
  cases fs with
  | nil => exact ⟨[], by simp [json_dumps]⟩
  | cons m ms =>
    exact ⟨dumpMember m ++ dumpMoreMembers ms, by simp [json_dumps]⟩

/-- The whole preprocessing pipeline of lines 85-97, applied to a dumped
object wrapped in either fence style with whitespace padding, recovers
exactly the dumped object. -/
theorem preprocess_fenceWrap (fs : List (String × Json)) (jsonLabel : Bool)
    (wsA wsB wsC wsD : List Char)
    (hA : ∀ c ∈ wsA, c.isWhitespace) (hB : ∀ c ∈ wsB, c.isWhitespace)
    (hC : ∀ c ∈ wsC, c.isWhitespace) (hD : ∀ c ∈ wsD, c.isWhitespace) :
    preprocess (fenceWrap jsonLabel wsA wsB wsC wsD (json_dumps (.obj fs))) =
      json_dumps (.obj fs) := by
  obtain ⟨mid, hmid⟩ := json_dumps_obj_shape fs
  have hinner : pyStrip (wsB ++ (json_dumps (.obj fs) ++ wsC)) =
      json_dumps (.obj fs) := by
    unfold pyStrip
    rw [hmid]
    have ha : ('{' :: (mid ++ ['}'])) ++ wsC = '{' :: ((mid ++ ['}']) ++ wsC) :=
      List.cons_append ..
    rw [ha, lstrip_sandwich wsB '{' ((mid ++ ['}']) ++ wsC) hB (by decide)]
    have hb : '{' :: ((mid ++ ['}']) ++ wsC) = (('{' :: mid) ++ ['}']) ++ wsC := by
      simp
    rw [hb, rstrip_sandwich ('{' :: mid) '}' wsC hC (by decide)]
    simp
  cases jsonLabel with
  | true =>
    have hw : fenceWrap true wsA wsB wsC wsD (json_dumps (.obj fs)) =
        wsA ++ ((jsonFence ++ (wsB ++ (json_dumps (.obj fs) ++ wsC))) ++
          (plainFence ++ wsD)) := by
      simp [fenceWrap]
    have hcore1 : jsonFence ++ (wsB ++ (json_dumps (.obj fs) ++ wsC)) =
        '`' :: ('`' :: '`' :: 'j' :: 's' :: 'o' :: 'n' ::
          (wsB ++ (json_dumps (.obj fs) ++ wsC))) := rfl
    have houter : pyStrip
        (fenceWrap true wsA wsB wsC wsD (json_dumps (.obj fs))) =
        (jsonFence ++ (wsB ++ (json_dumps (.obj fs) ++ wsC))) ++ plainFence := by
      rw [hw]
      unfold pyStrip
      have hshape : (jsonFence ++ (wsB ++ (json_dumps (.obj fs) ++ wsC))) ++
          (plainFence ++ wsD) =
          '`' :: (('`' :: '`' :: 'j' :: 's' :: 'o' :: 'n' ::
            (wsB ++ (json_dumps (.obj fs) ++ wsC))) ++ (plainFence ++ wsD)) := by
        rw [hcore1]
        simp
      rw [hshape,
        lstrip_sandwich wsA _ _ hA (by decide), ← hshape]
      have hshape2 : (jsonFence ++ (wsB ++ (json_dumps (.obj fs) ++ wsC))) ++
          (plainFence ++ wsD) =
          (((jsonFence ++ (wsB ++ (json_dumps (.obj fs) ++ wsC))) ++
            ['`', '`']) ++ ['`']) ++ wsD := by
        simp [plainFence]
      rw [hshape2, rstrip_sandwich _ '`' wsD hD (by decide)]
      simp [plainFence]
    unfold preprocess
    rw [houter, List.append_assoc, stripLeadFence_json, stripTrailFence_append,
      hinner]
  | false =>
    have hw : fenceWrap false wsA wsB wsC wsD (json_dumps (.obj fs)) =
        wsA ++ ((plainFence ++ (wsB ++ (json_dumps (.obj fs) ++ wsC))) ++
          (plainFence ++ wsD)) := by
      simp [fenceWrap]
    obtain ⟨cV, tV, hV, hcV⟩ : ∃ cV tV,
        wsB ++ (json_dumps (.obj fs) ++ wsC) = cV :: tV ∧ ¬ cV = 'j' := by
      cases wsB with
      | nil =>
        refine ⟨'{', mid ++ ['}'] ++ wsC, ?_, by decide⟩
        rw [List.nil_append, hmid]
        simp
      | cons w ws =>
        refine ⟨w, ws ++ (json_dumps (.obj fs) ++ wsC), rfl, ?_⟩
        intro hj
        have hwj := hB w (by simp)
        rw [hj] at hwj
        exact absurd hwj (by decide)
    have houter : pyStrip
        (fenceWrap false wsA wsB wsC wsD (json_dumps (.obj fs))) =
        (plainFence ++ (wsB ++ (json_dumps (.obj fs) ++ wsC))) ++ plainFence := by
      rw [hw]
      unfold pyStrip
      have hshape : (plainFence ++ (wsB ++ (json_dumps (.obj fs) ++ wsC))) ++
          (plainFence ++ wsD) =
          '`' :: (('`' :: '`' ::
            (wsB ++ (json_dumps (.obj fs) ++ wsC))) ++ (plainFence ++ wsD)) := by
        simp [plainFence]
      rw [hshape,
        lstrip_sandwich wsA _ _ hA (by decide), ← hshape]
      have hshape2 : (plainFence ++ (wsB ++ (json_dumps (.obj fs) ++ wsC))) ++
          (plainFence ++ wsD) =
          (((plainFence ++ (wsB ++ (json_dumps (.obj fs) ++ wsC))) ++
            ['`', '`']) ++ ['`']) ++ wsD := by
        simp [plainFence]
      rw [hshape2, rstrip_sandwich _ '`' wsD hD (by decide)]
      simp [plainFence]
    unfold preprocess
    rw [houter, List.append_assoc, hV, List.cons_append,
      stripLeadFence_plain cV (tV ++ plainFence) hcV, ← List.cons_append,
      ← hV, stripTrailFence_append, hinner]


set_option maxHeartbeats 1000000 in
/-- C5: round-trip — any JSON object, serialized and wrapped in either
fence style (JSON-labelled or generic) with arbitrary whitespace before
the opening marker, after it, before the closing marker, and after it,
is an input on which the extractor succeeds and returns a mapping equal
to the original object. -/
theorem parse_json_response_roundtrip (v : Json) (hobj : v.isObj = true)
    (jsonLabel : Bool) (wsA wsB wsC wsD : List Char)
    (hA : ∀ c ∈ wsA, c.isWhitespace) (hB : ∀ c ∈ wsB, c.isWhitespace)
    (hC : ∀ c ∈ wsC, c.isWhitespace) (hD : ∀ c ∈ wsD, c.isWhitespace) :
    parse_json_response (fenceWrap jsonLabel wsA wsB wsC wsD (json_dumps v)) =
      .ok v := by
  obtain ⟨fs, rfl⟩ : ∃ fs, v = Json.obj fs := by
    cases v with
    | obj fs => exact ⟨fs, rfl⟩
    | null => exact absurd hobj (by simp [Json.isObj])
    | bool b => exact absurd hobj (by simp [Json.isObj])
    | num n => exact absurd hobj (by simp [Json.isObj])
    | str s => exact absurd hobj (by simp [Json.isObj])
    | arr es => exact absurd hobj (by simp [Json.isObj])
  have hne : fenceWrap jsonLabel wsA wsB wsC wsD (json_dumps (.obj fs)) ≠ [] := by
    intro h
    have hl := congrArg List.length h
    cases jsonLabel <;>
      simp [fenceWrap, jsonFence, plainFence, List.length_append] at hl
  have hpre := preprocess_fenceWrap fs jsonLabel wsA wsB wsC wsD hA hB hC hD
  simp only [parse_json_response, if_neg hne, hpre, json_loads_dumps]

theorem parse_json_response_roundtrip_witness :
    parse_json_response (fenceWrap true [] ['\n'] ['\n'] [' ']
        (json_dumps (.obj [("answer", .num 42)]))) =
      .ok (.obj [("answer", .num 42)]) :=
  parse_json_response_roundtrip (.obj [("answer", .num 42)]) rfl true
    [] ['\n'] ['\n'] [' '] (by decide) (by decide) (by decide) (by decide)

end GeminiService
